import Mathlib

/-!
Verification of the line_sampler repository: a thread-safe line store
(src/server/cache_manager.py), a JSON wire protocol (src/server/protocol.py),
and the per-connection request dispatch loop (src/server/server.py),
shallowly embedded in Lean 4.

Python strings are modelled as Lean `String` (lists of unicode scalar
values), byte payloads as `List Char` (the protocol is pure UTF-8 text and
UTF-8 encoding of a unicode string is injective), machine integers as
`Int`/`Nat` (Python integers are unbounded, so no wrap-around modelling is
needed), and the PRNG draw made by `random.sample` as an explicit list of
selected positions passed in as a parameter.
-/

namespace LineSampler

/-! ### JSON values

Model of the values Python's `json` module serializes for this protocol:
null, booleans, integers, strings, arrays and string-keyed objects.
The protocol never transmits floating-point numbers, so JSON floats are
omitted from the model. -/

inductive Json where
  | null : Json
  | bool : Bool → Json
  | int : Int → Json
  | str : String → Json
  | arr : List Json → Json
  | obj : List (String × Json) → Json
deriving Repr

/-! ### Serialization: model of `json.dumps(message)`

`json.dumps` with default arguments: item separator is a comma followed by
a space, key separator is a colon followed by a space, `ensure_ascii` is on
(characters outside the printable ASCII range are emitted as backslash-u
escapes, with surrogate pairs above the basic multilingual plane), and the
characters double quote, backslash, backspace, tab, newline, form feed and
carriage return use their short escapes. -/

def isWsChar (c : Char) : Bool :=
  c == ' ' || c == '\t' || c == '\n' || c == '\r'

def hexDig (n : Nat) : Char :=
  if n < 10 then Char.ofNat (48 + n) else Char.ofNat (87 + n)

def hex4enc (n : Nat) : List Char :=
  [hexDig (n / 4096 % 16), hexDig (n / 256 % 16), hexDig (n / 16 % 16), hexDig (n % 16)]

def digChar (d : Nat) : Char := Char.ofNat (48 + d)

def natDigits (n : Nat) : List Char :=
  if n < 10 then [digChar n]
  else natDigits (n / 10) ++ [digChar (n % 10)]
termination_by n
decreasing_by exact Nat.div_lt_self (by omega) (by omega)

def digitsVal (ds : List Char) : Nat :=
  ds.foldl (fun a c => a * 10 + (c.toNat - 48)) 0

def serInt (i : Int) : List Char :=
  if i < 0 then '-' :: natDigits i.natAbs else natDigits i.toNat

def escChar (c : Char) : List Char :=
  if c = '"' then ['\\', '"']
  else if c = '\\' then ['\\', '\\']
  else if c = '\n' then ['\\', 'n']
  else if c = '\r' then ['\\', 'r']
  else if c = '\t' then ['\\', 't']
  else if c.toNat = 8 then ['\\', 'b']
  else if c.toNat = 12 then ['\\', 'f']
  else if 32 ≤ c.toNat ∧ c.toNat ≤ 126 then [c]
  else if c.toNat < 65536 then '\\' :: ('u' :: hex4enc c.toNat)
  else
    ('\\' :: ('u' :: hex4enc (55296 + (c.toNat - 65536) / 1024))) ++
      ('\\' :: ('u' :: hex4enc (56320 + (c.toNat - 65536) % 1024)))

def escList : List Char → List Char
  | [] => []
  | c :: cs => escChar c ++ escList cs

def serStr (s : String) : List Char :=
  '"' :: (escList s.data ++ ['"'])

mutual

def ser : Json → List Char
  | .null => 'n' :: ['u', 'l', 'l']
  | .bool true => 't' :: ['r', 'u', 'e']
  | .bool false => 'f' :: ['a', 'l', 's', 'e']
  | .int i => serInt i
  | .str s => serStr s
  | .arr [] => ['[', ']']
  | .arr (x :: xs) => '[' :: (ser x ++ serArrRest xs)
  | .obj [] => ['{', '}']
  | .obj ((k, v) :: kvs) =>
      '{' :: (serStr k ++ (':' :: (' ' :: (ser v ++ serObjRest kvs))))

def serArrRest : List Json → List Char
  | [] => [']']
  | x :: xs => ',' :: (' ' :: (ser x ++ serArrRest xs))

def serObjRest : List (String × Json) → List Char
  | [] => ['}']
  | (k, v) :: kvs =>
      ',' :: (' ' :: (serStr k ++ (':' :: (' ' :: (ser v ++ serObjRest kvs)))))

end

/-! ### Parsing: model of `json.loads(data)`

A recursive-descent JSON reader over the characters, with a fuel argument
bounding the nesting depth explored.  It accepts the whole language our
serializer emits (plus standard JSON whitespace and both hex-digit cases in
escapes).  JSON floats are not accepted, matching the restriction of the
model; the protocol only ever carries integers. -/

def hexVal (c : Char) : Option Nat :=
  if 48 ≤ c.toNat ∧ c.toNat ≤ 57 then some (c.toNat - 48)
  else if 97 ≤ c.toNat ∧ c.toNat ≤ 102 then some (c.toNat - 87)
  else if 65 ≤ c.toNat ∧ c.toNat ≤ 70 then some (c.toNat - 55)
  else none

def hex4 (a b c d : Char) : Option Nat := do
  let va ← hexVal a
  let vb ← hexVal b
  let vc ← hexVal c
  let vd ← hexVal d
  some (va * 4096 + vb * 256 + vc * 16 + vd)

def skipWs : List Char → List Char
  | [] => []
  | c :: r => if isWsChar c then skipWs r else c :: r

def mapFst (c : Char) : Option (List Char × List Char) → Option (List Char × List Char) :=
  Option.map (fun p => (c :: p.1, p.2))

/-- Decode one escape sequence (the input starts right after a
backslash): the decoded character and the remaining input. -/
def escDecode (r : List Char) : Option (Char × List Char) :=
  match r with
  | [] => none
  | e :: r1 =>
    if e = '"' then some ('"', r1)
    else if e = '\\' then some ('\\', r1)
    else if e = '/' then some ('/', r1)
    else if e = 'n' then some ('\n', r1)
    else if e = 'r' then some ('\r', r1)
    else if e = 't' then some ('\t', r1)
    else if e = 'b' then some (Char.ofNat 8, r1)
    else if e = 'f' then some (Char.ofNat 12, r1)
    else if e = 'u' then
      match r1 with
      | a :: b :: c2 :: d :: r2 =>
        (match hex4 a b c2 d with
         | none => none
         | some n =>
           if n < 55296 ∨ 57344 ≤ n then some (Char.ofNat n, r2)
           else if n < 56320 then
             match r2 with
             | e2 :: u2 :: a2 :: b2 :: c3 :: d2 :: r3 =>
               if e2 = '\\' ∧ u2 = 'u' then
                 match hex4 a2 b2 c3 d2 with
                 | none => none
                 | some m =>
                   if 56320 ≤ m ∧ m < 57344 then
                     some (Char.ofNat (65536 + ((n - 55296) * 1024 + (m - 56320))), r3)
                   else none
               else none
             | _ => none
           else none)
      | _ => none
    else none

/-- Read the body of a string literal up to the closing quote; the fuel
only needs to cover the number of decoded characters plus one. -/
def parseStrBody : Nat → List Char → Option (List Char × List Char)
  | 0, _ => none
  | _ + 1, [] => none
  | fuel + 1, c :: r =>
    if c = '"' then some ([], r)
    else if c = '\\' then
      match escDecode r with
      | none => none
      | some (c2, r2) => mapFst c2 (parseStrBody fuel r2)
    else mapFst c (parseStrBody fuel r)

/-- Read a string body; the input length bounds the number of decoded
characters, so it is a sufficient fuel. -/
def parseStr (s : List Char) : Option (List Char × List Char) :=
  parseStrBody s.length s

def parseNat (s : List Char) : Option (Nat × List Char) :=
  let ds := s.takeWhile Char.isDigit
  if ds.isEmpty then none else some (digitsVal ds, s.dropWhile Char.isDigit)

mutual

def parseVal : Nat → List Char → Option (Json × List Char)
  | 0, _ => none
  | _ + 1, [] => none
  | fuel + 1, c :: r =>
    if c = '-' then
      match parseNat r with
      | some (m, r1) => some (.int (-(m : Int)), r1)
      | none => none
    else if c.isDigit then
      match parseNat (c :: r) with
      | some (m, r1) => some (.int (m : Int), r1)
      | none => none
    else if c = '"' then
      match parseStr r with
      | some (cs, r1) => some (.str ⟨cs⟩, r1)
      | none => none
    else if c = '[' then
      match skipWs r with
      | [] => none
      | c1 :: r1 =>
        if c1 = ']' then some (.arr [], r1)
        else
          match parseVal fuel (c1 :: r1) with
          | some (v, r2) =>
            match parseArrRest fuel (skipWs r2) with
            | some (vs, r3) => some (.arr (v :: vs), r3)
            | none => none
          | none => none
    else if c = '{' then
      match skipWs r with
      | [] => none
      | c1 :: r1 =>
        if c1 = '}' then some (.obj [], r1)
        else if c1 = '"' then
          match parseStr r1 with
          | some (k, r2) =>
            match skipWs r2 with
            | ':' :: r3 =>
              match parseVal fuel (skipWs r3) with
              | some (v, r4) =>
                match parseObjRest fuel (skipWs r4) with
                | some (kvs, r5) => some (.obj ((⟨k⟩, v) :: kvs), r5)
                | none => none
              | none => none
            | _ => none
          | none => none
        else none
    else if c = 'n' then
      if r.take 3 = ['u', 'l', 'l'] then some (.null, r.drop 3) else none
    else if c = 't' then
      if r.take 3 = ['r', 'u', 'e'] then some (.bool true, r.drop 3) else none
    else if c = 'f' then
      if r.take 4 = ['a', 'l', 's', 'e'] then some (.bool false, r.drop 4) else none
    else none

def parseArrRest : Nat → List Char → Option (List Json × List Char)
  | 0, _ => none
  | _ + 1, [] => none
  | fuel + 1, c :: r =>
    if c = ']' then some ([], r)
    else if c = ',' then
      match parseVal fuel (skipWs r) with
      | some (v, r1) =>
        match parseArrRest fuel (skipWs r1) with
        | some (vs, r2) => some (v :: vs, r2)
        | none => none
      | none => none
    else none

def parseObjRest : Nat → List Char → Option (List (String × Json) × List Char)
  | 0, _ => none
  | _ + 1, [] => none
  | fuel + 1, c :: r =>
    if c = '}' then some ([], r)
    else if c = ',' then
      match skipWs r with
      | '"' :: r1 =>
        match parseStr r1 with
        | some (k, r2) =>
          match skipWs r2 with
          | ':' :: r3 =>
            match parseVal fuel (skipWs r3) with
            | some (v, r4) =>
              match parseObjRest fuel (skipWs r4) with
              | some (kvs, r5) => some ((⟨k⟩, v) :: kvs, r5)
              | none => none
            | none => none
          | _ => none
        | none => none
      | _ => none
    else none

end

def loads (data : List Char) : Option Json :=
  match parseVal (data.length + 1) (skipWs data) with
  | some (v, r) => if skipWs r = [] then some v else none
  | none => none

/-- A fuel budget sufficient for `parseVal` to read back `ser v`. -/
def fuelV : Json → Nat
  | .null => 1
  | .bool _ => 1
  | .int _ => 1
  | .str _ => 1
  | .arr [] => 1
  | .arr (x :: xs) => 1 + fuelV x + fuelV (.arr xs)
  | .obj [] => 1
  | .obj ((_, v) :: kvs) => 1 + fuelV v + fuelV (.obj kvs)

/-- Characters allowed to follow a serialized value: nothing, or a
separator or closer emitted by the serializer (never a digit, so a
serialized integer is read back whole). -/
def restOk : List Char → Bool
  | [] => true
  | c :: _ => c == ',' || c == ']' || c == '}'

/-! ### The line store: `ThreadSafeCache` (src/server/cache_manager.py)

The lock only serializes operations; each operation body is modelled as a
pure state transformer.  `random.sample(lines_list, n)` draws `n` distinct
positions of `lines_list` uniformly; the draw is modelled by the parameter
`sel`, the list of drawn positions in draw order, subject to `ValidSel`. -/

structure ThreadSafeCache where
  available_lines : List String
  total_lines_loaded : Nat
deriving Repr

def ThreadSafeCache.init : ThreadSafeCache := ⟨[], 0⟩

def ThreadSafeCache.add_lines (c : ThreadSafeCache) (lines : List String) :
    Nat × ThreadSafeCache :=
  (lines.length, ⟨c.available_lines ++ lines, c.total_lines_loaded + lines.length⟩)

/-- Model of `ThreadSafeCache.sample`.  After the guard, the code clamps
`n` to `min n (len available)`, draws that many distinct positions
(`random.sample`, modelled by `sel`), and rebuilds the deque keeping the
lines whose CONTENT is not in `set(sampled)`. -/
def ThreadSafeCache.sample (c : ThreadSafeCache) (n : Int) (sel : List Nat) :
    List String × ThreadSafeCache :=
  if c.available_lines.isEmpty ∨ n ≤ 0 then ([], c)
  else
    let lines_list := c.available_lines
    let sampled := sel.filterMap fun i => lines_list.get? i
    let new_avail := lines_list.filter fun line => !(sampled.contains line)
    (sampled, ⟨new_avail, c.total_lines_loaded⟩)

/-- Contract of the PRNG draw `random.sample(lines_list, k)` on a list of
length `len`: `k` distinct positions, all in range. -/
def ValidSel (sel : List Nat) (k len : Nat) : Prop :=
  sel.Nodup ∧ sel.length = k ∧ ∀ i ∈ sel, i < len

def ThreadSafeCache.size (c : ThreadSafeCache) : Nat := c.available_lines.length

def ThreadSafeCache.get_stats (c : ThreadSafeCache) : Nat × Nat :=
  (c.available_lines.length, c.total_lines_loaded)

/-- The four store operations, for stating store-wide invariants. -/
inductive CacheOp where
  | add (lines : List String)
  | sample (n : Int) (sel : List Nat)
  | size
  | stats

def CacheOp.step (c : ThreadSafeCache) : CacheOp → ThreadSafeCache
  | .add lines => (c.add_lines lines).2
  | .sample n sel => (c.sample n sel).2
  | .size => c
  | .stats => c

def CacheInv (c : ThreadSafeCache) : Prop :=
  c.available_lines.length ≤ c.total_lines_loaded

/-! ### Wire protocol (src/server/protocol.py)

`encode_request` and `encode_response` build a dict and call
`json.dumps(message).encode(utf-8)`; `decode` is
`json.loads(data.decode(utf-8))`.  UTF-8 en/decoding of a unicode string
is injective and total here, so the byte level is elided and payloads are
the serialized characters. -/

def MAX_MESSAGE_SIZE : Nat := 10 * 1024 * 1024

def Protocol.encode_request (method : String) (params : List (String × Json)) :
    List Char :=
  ser (.obj [("type", .str "request"), ("method", .str method),
             ("params", .obj params)])

def Protocol.encode_response (result : Json) (error : Option String) : List Char :=
  ser (.obj [("type", .str "response"), ("result", result),
             ("error", match error with | none => .null | some e => .str e)])

def Protocol.decode (data : List Char) : Option Json := loads data

/-! ### Python runtime fragments used by the server -/

/-- Exceptions the handlers can raise; `handle_client` catches them all at
the request boundary and answers `encode_response(None, str(e))`. -/
inductive PyErr where
  | valueError (msg : String)
  | typeError (msg : String)
  | attributeError (msg : String)
deriving Repr

def PyErr.msg : PyErr → String
  | .valueError m => m
  | .typeError m => m
  | .attributeError m => m

/-- Model of `dict.get(key)` on a decoded JSON object (keys of a Python
dict are unique, so first match suffices). -/
def pyGet (kvs : List (String × Json)) (key : String) : Option Json :=
  (kvs.find? fun kv => kv.1 == key).map (·.2)

/-- Python truthiness of a JSON-decoded value. -/
def pyTruthy : Json → Bool
  | .null => false
  | .bool b => b
  | .int i => !(i == 0)
  | .str s => !(s == "")
  | .arr xs => !xs.isEmpty
  | .obj kvs => !kvs.isEmpty

def pyTruthyOpt : Option Json → Bool
  | none => false
  | some v => pyTruthy v

/-- Model of `int(s)` for a string argument: optional surrounding
whitespace, an optional sign, then decimal digits; anything else raises
ValueError. -/
def pyIntStr (s : String) : Option Int :=
  let t1 := s.data.dropWhile isWsChar
  let t2 := (t1.reverse.dropWhile isWsChar).reverse
  match t2 with
  | '-' :: ds =>
    if !ds.isEmpty && ds.all Char.isDigit then some (-(digitsVal ds : Int)) else none
  | '+' :: ds =>
    if !ds.isEmpty && ds.all Char.isDigit then some ((digitsVal ds : Int)) else none
  | ds =>
    if !ds.isEmpty && ds.all Char.isDigit then some ((digitsVal ds : Int)) else none

/-- Model of the builtin `int(x)` on a JSON-decoded value: ints are kept,
bools are 0 or 1 (bool is an int subtype), numeric strings are parsed
(ValueError otherwise), and null/list/dict raise TypeError. -/
def pyInt : Json → Except PyErr Int
  | .int i => .ok i
  | .bool b => .ok (if b then 1 else 0)
  | .str s =>
    match pyIntStr s with
    | some i => .ok i
    | none => .error (.valueError ("invalid literal for int() with base 10: " ++ s))
  | .null => .error (.typeError "int() argument must not be None")
  | .arr _ => .error (.typeError "int() argument must not be a list")
  | .obj _ => .error (.typeError "int() argument must not be a dict")

/-- Model of the coercion block of `handle_sample`: `int(n)` and the
negativity check run inside a try whose `except ValueError` re-raises
"n must be an integer" (so the dedicated "n must be non-negative" message
is itself caught and replaced); TypeError propagates unchanged. -/
def coerceN (v : Json) : Except PyErr Int :=
  match pyInt v with
  | .error (.valueError _) => .error (.valueError "n must be an integer")
  | .error e => .error e
  | .ok i => if i < 0 then .error (.valueError "n must be an integer") else .ok i

/-! ### Request handlers and session loop (src/server/server.py)

The file system is a partial map `fs` from path to the raw lines
`f.readlines()` would yield (terminators included); `none` is any read
failure (missing file, permission, I/O fault).  `handle_load` on a
non-string truthy path is modelled as the read failure `open` raises. -/

def rstripNewlines (s : String) : String :=
  ⟨(s.data.reverse.dropWhile fun c => c == '\n' || c == '\r').reverse⟩

def LineServer.handle_load (fs : String → Option (List String))
    (cache : ThreadSafeCache) (params : Json) :
    Except PyErr (Json × ThreadSafeCache) :=
  match params with
  | .obj kvs =>
    let file_path := pyGet kvs "file_path"
    if pyTruthyOpt file_path = false then
      .error (.valueError "Missing file_path parameter")
    else
      match file_path with
      | some (.str p) =>
        match fs p with
        | none => .error (.valueError ("Error reading file: " ++ p))
        | some raw =>
          let lines := raw.map rstripNewlines
          let r := cache.add_lines lines
          .ok (.obj [("lines_read", .int r.1)], r.2)
      | _ => .error (.valueError "Error reading file: bad path type")
  | _ => .error (.attributeError "params has no attribute get")

def LineServer.handle_sample (cache : ThreadSafeCache) (params : Json)
    (sel : List Nat) : Except PyErr (Json × ThreadSafeCache) :=
  match params with
  | .obj kvs =>
    match pyGet kvs "n" with
    | none => .error (.valueError "Missing n parameter")
    | some .null => .error (.valueError "Missing n parameter")
    | some v =>
      match coerceN v with
      | .error e => .error e
      | .ok i =>
        let r := cache.sample i sel
        .ok (.obj [("lines", .arr (r.1.map .str))], r.2)
  | _ => .error (.attributeError "params has no attribute get")

/-- Rough model of the f-string rendering of a method value in the
"Unknown method" message; the claims never inspect this text. -/
def pyReprOpt : Option Json → String
  | none => "None"
  | some (.str s) => s
  | some v => ⟨ser v⟩

/-- Dispatch of one decoded message: the type check, `params` defaulting
to the empty dict, and the method dispatch of `handle_client`'s inner
try block. -/
def requestResult (fs : String → Option (List String)) (cache : ThreadSafeCache)
    (msg : Json) (sel : List Nat) : Except PyErr (Json × ThreadSafeCache) :=
  match msg with
  | .obj kvs =>
    if (match pyGet kvs "type" with | some (.str t) => t == "request" | _ => false) then
      let params := (pyGet kvs "params").getD (.obj [])
      match pyGet kvs "method" with
      | some (.str m) =>
        if m = "load" then LineServer.handle_load fs cache params
        else if m = "sample" then LineServer.handle_sample cache params sel
        else .error (.valueError ("Unknown method: " ++ m))
      | m => .error (.valueError ("Unknown method: " ++ pyReprOpt m))
    else .error (.valueError "Invalid message type")
  | _ => .error (.attributeError "message has no attribute get")

/-- Placeholder text of the `json.JSONDecodeError` a malformed payload
raises (the real text carries a position; only its presence matters). -/
def jsonErrorMsg : String := "Invalid JSON payload"

/-- One iteration of the session loop: decode, dispatch, and the
`except Exception` conversion of any fault into an Error response; a
failed request leaves the cache as it was. -/
def processMessage (fs : String → Option (List String)) (cache : ThreadSafeCache)
    (data : List Char) (sel : List Nat) : List Char × ThreadSafeCache :=
  match Protocol.decode data with
  | none => (Protocol.encode_response .null (some jsonErrorMsg), cache)
  | some msg =>
    match requestResult fs cache msg sel with
    | .ok (result, cache1) => (Protocol.encode_response result none, cache1)
    | .error e => (Protocol.encode_response .null (some e.msg), cache)

/-- The session loop of `handle_client` over the sequence of payloads a
connection delivers (each with the PRNG draw its dispatch would use):
responses written back, and the final store state. -/
def handle_client (fs : String → Option (List String)) :
    ThreadSafeCache → List (List Char × List Nat) →
    List (List Char) × ThreadSafeCache
  | cache, [] => ([], cache)
  | cache, (data, sel) :: msgs =>
    let r := processMessage fs cache data sel
    let rest := handle_client fs r.2 msgs
    (r.1 :: rest.1, rest.2)

/-- A payload that fails to decode into a valid request: malformed
payload, non-request type, unknown or missing method, or missing/invalid
parameters — exactly the fs-independent failures of `requestResult`. -/
def isBadRequestMsg : Json → Bool
  | .obj kvs =>
    (match pyGet kvs "type" with | some (.str t) => !(t == "request") | _ => true)
    ||
    (match pyGet kvs "method" with
     | some (.str m) =>
       if m = "load" then
         (match (pyGet kvs "params").getD (.obj []) with
          | .obj pkvs =>
            (match pyGet pkvs "file_path" with
             | some (.str p) => p == ""
             | _ => true)
          | _ => true)
       else if m = "sample" then
         (match (pyGet kvs "params").getD (.obj []) with
          | .obj pkvs =>
            (match pyGet pkvs "n" with
             | none => true
             | some .null => true
             | some v => match coerceN v with | .error _ => true | .ok _ => false)
          | _ => true)
       else true
     | _ => true)
  | _ => true

def isBadRequest (data : List Char) : Bool :=
  match Protocol.decode data with
  | none => true
  | some msg => isBadRequestMsg msg

/-- Witness payload for the framing claim: a JSON string longer than the
configured maximum message size. -/
def bigPayload : Json := .str ⟨List.replicate (MAX_MESSAGE_SIZE + 1) 'a'⟩

def IsErr {α : Type} (r : Except PyErr α) : Prop := ∃ e, r = .error e

/-! ### Round-trip proofs: characters, hex and decimal digits -/

theorem hexVal_hexDig (d : Nat) (h : d < 16) : hexVal (hexDig d) = some d := by
  interval_cases d <;> rfl

theorem hex4_enc (n : Nat) (h : n < 65536) :
    hex4 (hexDig (n / 4096 % 16)) (hexDig (n / 256 % 16)) (hexDig (n / 16 % 16))
      (hexDig (n % 16)) = some n := by
  have h1 : n / 4096 % 16 < 16 := Nat.mod_lt _ (by omega)
  have h2 : n / 256 % 16 < 16 := Nat.mod_lt _ (by omega)
  have h3 : n / 16 % 16 < 16 := Nat.mod_lt _ (by omega)
  have h4 : n % 16 < 16 := Nat.mod_lt _ (by omega)
  simp only [hex4, hexVal_hexDig _ h1, hexVal_hexDig _ h2, hexVal_hexDig _ h3,
    hexVal_hexDig _ h4, Option.bind_eq_bind, Option.some_bind]
  congr 1
  omega

theorem char_valid_nat (c : Char) :
    c.toNat < 55296 ∨ (57343 < c.toNat ∧ c.toNat < 1114112) := by
  have h := c.valid
  unfold UInt32.isValidChar Nat.isValidChar at h
  exact h

theorem ne_of_isDigit {c : Char} (h : c.isDigit = true) :
    ∀ c' : Char, c'.isDigit = false → c ≠ c' := by
  intro c' hc' he
  subst he
  rw [h] at hc'
  cases hc'

theorem isWs_false_of_isDigit {c : Char} (h : c.isDigit = true) :
    isWsChar c = false := by
  cases hw : isWsChar c with
  | false => rfl
  | true =>
    exfalso
    simp [isWsChar, or_assoc] at hw
    rcases hw with h' | h' | h' | h' <;> subst h' <;> simp at h

theorem digChar_toNat (d : Nat) (h : d < 10) : (digChar d).toNat = 48 + d := by
  interval_cases d <;> rfl

theorem digChar_isDigit (d : Nat) (h : d < 10) : (digChar d).isDigit = true := by
  interval_cases d <;> rfl

theorem digitsVal_append_one (xs : List Char) (c : Char) :
    digitsVal (xs ++ [c]) = digitsVal xs * 10 + (c.toNat - 48) := by
  simp [digitsVal, List.foldl_append]

theorem natDigits_spec (n : Nat) :
    digitsVal (natDigits n) = n ∧ natDigits n ≠ [] ∧
      ∀ c ∈ natDigits n, c.isDigit = true := by
  induction n using Nat.strong_induction_on with
  | _ n ih =>
    rw [natDigits]
    split
    · next h =>
      refine ⟨?_, by simp, ?_⟩
      · have := digChar_toNat n h
        simp [digitsVal, this]
      · intro c hc
        simp only [List.mem_singleton] at hc
        subst hc
        exact digChar_isDigit n h
    · next h =>
      have hlt : n / 10 < n := Nat.div_lt_self (by omega) (by omega)
      obtain ⟨hv, hne, hd⟩ := ih (n / 10) hlt
      have hm : n % 10 < 10 := Nat.mod_lt _ (by omega)
      refine ⟨?_, by simp, ?_⟩
      · rw [digitsVal_append_one, hv, digChar_toNat _ hm]
        omega
      · intro c hc
        rcases List.mem_append.mp hc with h1 | h1
        · exact hd c h1
        · simp only [List.mem_singleton] at h1
          subst h1
          exact digChar_isDigit _ hm

/-! ### Round-trip proofs: numbers after context -/

theorem takeWhile_append_all {p : Char → Bool} (xs ys : List Char)
    (h : ∀ c ∈ xs, p c = true) :
    (xs ++ ys).takeWhile p = xs ++ ys.takeWhile p ∧
      (xs ++ ys).dropWhile p = ys.dropWhile p := by
  induction xs with
  | nil => simp
  | cons a l ih =>
    have ha := h a (by simp)
    have hrec := ih fun c hc => h c (by simp [hc])
    simp [List.takeWhile_cons, List.dropWhile_cons, ha, hrec.1, hrec.2]

theorem restOk_stops_digits {rest : List Char} (h : restOk rest = true) :
    rest.takeWhile Char.isDigit = [] ∧ rest.dropWhile Char.isDigit = rest := by
  cases rest with
  | nil => simp
  | cons c t =>
    simp only [restOk, Bool.or_eq_true, beq_iff_eq] at h
    rcases h with (h | h) | h <;> subst h <;>
      simp [List.takeWhile_cons, List.dropWhile_cons]

theorem parseNat_natDigits (m : Nat) (rest : List Char) (h : restOk rest = true) :
    parseNat (natDigits m ++ rest) = some (m, rest) := by
  obtain ⟨hv, hne, hdig⟩ := natDigits_spec m
  obtain ⟨ht, hd⟩ := takeWhile_append_all (natDigits m) rest hdig
  obtain ⟨ht2, hd2⟩ := restOk_stops_digits h
  have hemp : (natDigits m ++ rest.takeWhile Char.isDigit).isEmpty = false := by
    rw [ht2]
    simpa [List.isEmpty_eq_false] using hne
  simp [parseNat, ht, hd, ht2, hd2, hv, hemp, hne]

/-! ### Round-trip proofs: whitespace and leading characters -/

theorem skipWs_not_ws {c : Char} (r : List Char) (h : isWsChar c = false) :
    skipWs (c :: r) = c :: r := by
  simp [skipWs, h]

theorem skipWs_space (r : List Char) : skipWs (' ' :: r) = skipWs r := by
  rw [skipWs]
  norm_num [isWsChar]

theorem ser_head (v : Json) :
    ∃ c cs, ser v = c :: cs ∧ isWsChar c = false ∧ c ≠ ']' ∧ c ≠ '}' := by
  cases v with
  | null =>
    refine ⟨'n', _, rfl, ?_, ?_, ?_⟩ <;> decide
  | bool b =>
    rcases b with _ | _
    · refine ⟨'f', _, rfl, ?_, ?_, ?_⟩ <;> decide
    · refine ⟨'t', _, rfl, ?_, ?_, ?_⟩ <;> decide
  | int i =>
    by_cases hi : i < 0
    · exact ⟨'-', natDigits i.natAbs, by simp [ser, serInt, hi], by decide,
        by decide, by decide⟩
    · cases hnd : natDigits i.toNat with
      | nil => exact absurd hnd (natDigits_spec i.toNat).2.1
      | cons d ds =>
        have hdig : d.isDigit = true :=
          (natDigits_spec i.toNat).2.2 d (by rw [hnd]; exact List.mem_cons_self _ _)
        exact ⟨d, ds, by simp [ser, serInt, hi, hnd], isWs_false_of_isDigit hdig,
          ne_of_isDigit hdig ']' (by decide), ne_of_isDigit hdig '}' (by decide)⟩
  | str s =>
    refine ⟨'"', _, rfl, ?_, ?_, ?_⟩ <;> decide
  | arr xs =>
    rcases xs with _ | ⟨x, t⟩
    · refine ⟨'[', _, rfl, ?_, ?_, ?_⟩ <;> decide
    · refine ⟨'[', _, rfl, ?_, ?_, ?_⟩ <;> decide
  | obj kvs =>
    rcases kvs with _ | ⟨⟨k, v⟩, t⟩
    · refine ⟨'{', _, rfl, ?_, ?_, ?_⟩ <;> decide
    · refine ⟨'{', _, rfl, ?_, ?_, ?_⟩ <;> decide

theorem skipWs_ser (v : Json) (t : List Char) :
    skipWs (ser v ++ t) = ser v ++ t := by
  obtain ⟨c, cs, he, hw, -, -⟩ := ser_head v
  rw [he, List.cons_append, skipWs_not_ws _ hw]

theorem restOk_serArrRest (xs : List Json) (t : List Char) :
    restOk (serArrRest xs ++ t) = true := by
  cases xs with
  | nil => rfl
  | cons x l => rfl

theorem restOk_serObjRest (kvs : List (String × Json)) (t : List Char) :
    restOk (serObjRest kvs ++ t) = true := by
  cases kvs with
  | nil => rfl
  | cons kv l =>
    obtain ⟨k, v⟩ := kv
    rfl

theorem skipWs_serArrRest (xs : List Json) (t : List Char) :
    skipWs (serArrRest xs ++ t) = serArrRest xs ++ t := by
  cases xs with
  | nil => exact skipWs_not_ws _ (by decide)
  | cons x l => exact skipWs_not_ws _ (by decide)

theorem skipWs_serObjRest (kvs : List (String × Json)) (t : List Char) :
    skipWs (serObjRest kvs ++ t) = serObjRest kvs ++ t := by
  cases kvs with
  | nil => exact skipWs_not_ws _ (by decide)
  | cons kv l =>
    obtain ⟨k, v⟩ := kv
    exact skipWs_not_ws _ (by decide)

/-! ### Round-trip proofs: string bodies -/

theorem strBody_escStep (f : Nat) (c2 : Char) (r2 cl rest tail : List Char)
    (hdec : escDecode tail = some (c2, r2))
    (ih2 : parseStrBody f r2 = some (cl, rest)) :
    parseStrBody (f + 1) ('\\' :: tail) = some (c2 :: cl, rest) := by
  simp only [parseStrBody]
  simp [hdec, mapFst, ih2]

theorem strBody_lit (f : Nat) (c : Char) (tail cl rest : List Char)
    (h1 : ¬c = '"') (h2 : ¬c = '\\')
    (ih2 : parseStrBody f tail = some (cl, rest)) :
    parseStrBody (f + 1) (c :: tail) = some (c :: cl, rest) := by
  simp only [parseStrBody]
  simp [h1, h2, mapFst, ih2]

theorem escDecode_u_abs (a b c d : Char) (n : Nat) (t : List Char)
    (hhex : hex4 a b c d = some n) (hs : n < 55296 ∨ 57344 ≤ n) :
    escDecode ('u' :: a :: b :: c :: d :: t) = some (Char.ofNat n, t) := by
  simp only [escDecode]
  simp [hhex, hs]

theorem escDecode_pair_abs (a b c d e f g h : Char) (n m : Nat) (t : List Char)
    (hx1 : hex4 a b c d = some n) (hn1 : ¬(n < 55296 ∨ 57344 ≤ n)) (hn2 : n < 56320)
    (hx2 : hex4 e f g h = some m) (hm : 56320 ≤ m ∧ m < 57344) :
    escDecode ('u' :: a :: b :: c :: d :: '\\' :: 'u' :: e :: f :: g :: h :: t) =
      some (Char.ofNat (65536 + ((n - 55296) * 1024 + (m - 56320))), t) := by
  simp only [escDecode]
  simp [hx1, hn1, hn2, hx2, hm]

theorem parseStrBody_escList (cs : List Char) :
    ∀ fuel rest, cs.length < fuel →
      parseStrBody fuel (escList cs ++ ('"' :: rest)) = some (cs, rest) := by
  induction cs with
  | nil =>
    intro fuel rest hf
    obtain ⟨f, rfl⟩ : ∃ f, fuel = f + 1 := ⟨fuel - 1, by omega⟩
    simp [parseStrBody, escList]
  | cons c cl ih =>
    intro fuel rest hf
    obtain ⟨f, rfl⟩ : ∃ f, fuel = f + 1 := ⟨fuel - 1, by omega⟩
    have ihf : parseStrBody f (escList cl ++ ('"' :: rest)) = some (cl, rest) :=
      ih f rest (by simp at hf; omega)
    show parseStrBody (f + 1) ((escChar c ++ escList cl) ++ ('"' :: rest)) = _
    rw [List.append_assoc]
    by_cases h1 : c = '"'
    · subst h1
      rw [show escChar '"' = ['\\', '"'] from by simp [escChar]]
      exact strBody_escStep _ _ _ _ _ _ (by simp [escDecode]) ihf
    by_cases h2 : c = '\\'
    · subst h2
      rw [show escChar '\\' = ['\\', '\\'] from by simp [escChar]]
      exact strBody_escStep _ _ _ _ _ _ (by simp [escDecode]) ihf
    by_cases h3 : c = '\n'
    · subst h3
      rw [show escChar '\n' = ['\\', 'n'] from by simp [escChar]]
      exact strBody_escStep _ _ _ _ _ _ (by simp [escDecode]) ihf
    by_cases h4 : c = '\r'
    · subst h4
      rw [show escChar '\r' = ['\\', 'r'] from by simp [escChar]]
      exact strBody_escStep _ _ _ _ _ _ (by simp [escDecode]) ihf
    by_cases h5 : c = '\t'
    · subst h5
      rw [show escChar '\t' = ['\\', 't'] from by simp [escChar]]
      exact strBody_escStep _ _ _ _ _ _ (by simp [escDecode]) ihf
    by_cases h6 : c.toNat = 8
    · have hc : Char.ofNat 8 = c := by rw [← h6, Char.ofNat_toNat]
      rw [show escChar c = ['\\', 'b'] from by
        simp [escChar, h1, h2, h3, h4, h5, h6], ← hc]
      exact strBody_escStep _ _ _ _ _ _ (by simp [escDecode]) ihf
    by_cases h7 : c.toNat = 12
    · have hc : Char.ofNat 12 = c := by rw [← h7, Char.ofNat_toNat]
      rw [show escChar c = ['\\', 'f'] from by
        simp [escChar, h1, h2, h3, h4, h5, h6, h7], ← hc]
      exact strBody_escStep _ _ _ _ _ _ (by simp [escDecode]) ihf
    by_cases h8 : 32 ≤ c.toNat ∧ c.toNat ≤ 126
    · rw [show escChar c = [c] from by
        simp [escChar, h1, h2, h3, h4, h5, h6, h7, h8]]
      exact strBody_lit _ _ _ _ _ h1 h2 ihf
    by_cases h9 : c.toNat < 65536
    · have hval := char_valid_nat c
      have hsur : c.toNat < 55296 ∨ 57344 ≤ c.toNat := by omega
      have hdec := escDecode_u_abs _ _ _ _ c.toNat
        (escList cl ++ ('"' :: rest)) (hex4_enc c.toNat h9) hsur
      rw [Char.ofNat_toNat] at hdec
      rw [show escChar c = '\\' :: ('u' :: hex4enc c.toNat) from by
        simp [escChar, h1, h2, h3, h4, h5, h6, h7, h8, h9]]
      simp only [hex4enc, List.cons_append, List.nil_append]
      exact strBody_escStep _ _ _ _ _ _ hdec ihf
    · have hval := char_valid_nat c
      have hup : c.toNat < 1114112 := by omega
      have hlow : 65536 ≤ c.toNat := by omega
      have hhi1 : 55296 + (c.toNat - 65536) / 1024 < 65536 := by omega
      have hlo1 : 56320 + (c.toNat - 65536) % 1024 < 65536 := by omega
      have hn1 : ¬(55296 + (c.toNat - 65536) / 1024 < 55296 ∨
          57344 ≤ 55296 + (c.toNat - 65536) / 1024) := by omega
      have hn2 : 55296 + (c.toNat - 65536) / 1024 < 56320 := by omega
      have hm : 56320 ≤ 56320 + (c.toNat - 65536) % 1024 ∧
          56320 + (c.toNat - 65536) % 1024 < 57344 := by omega
      have hdec := escDecode_pair_abs _ _ _ _ _ _ _ _ _ _
        (escList cl ++ ('"' :: rest))
        (hex4_enc _ hhi1) hn1 hn2 (hex4_enc _ hlo1) hm
      have harith : 65536 + ((55296 + (c.toNat - 65536) / 1024 - 55296) * 1024 +
          (56320 + (c.toNat - 65536) % 1024 - 56320)) = c.toNat := by omega
      rw [harith, Char.ofNat_toNat] at hdec
      rw [show escChar c = ('\\' :: ('u' :: hex4enc (55296 + (c.toNat - 65536) / 1024))) ++
          ('\\' :: ('u' :: hex4enc (56320 + (c.toNat - 65536) % 1024))) from by
        simp [escChar, h1, h2, h3, h4, h5, h6, h7, h8, h9]]
      simp only [hex4enc, List.cons_append, List.nil_append, List.append_assoc]
      exact strBody_escStep _ _ _ _ _ _ hdec ihf

theorem escChar_length_pos (c : Char) : 1 ≤ (escChar c).length := by
  rw [escChar]
  split_ifs <;> simp

theorem escList_length_ge (cs : List Char) : cs.length ≤ (escList cs).length := by
  induction cs with
  | nil => simp [escList]
  | cons c cl ih =>
    have := escChar_length_pos c
    simp only [escList, List.length_append, List.length_cons]
    omega

theorem parseStr_escList (cs t : List Char) :
    parseStr (escList cs ++ ('"' :: t)) = some (cs, t) := by
  apply parseStrBody_escList
  have := escList_length_ge cs
  simp only [List.length_append, List.length_cons]
  omega

/-! ### Round-trip proofs: values -/

theorem json_ind (P : Json → Prop) (hnull : P .null) (hbool : ∀ b, P (.bool b))
    (hint : ∀ i, P (.int i)) (hstr : ∀ s, P (.str s))
    (harr : ∀ xs, (∀ x ∈ xs, P x) → P (.arr xs))
    (hobj : ∀ kvs, (∀ kv ∈ kvs, P kv.2) → P (.obj kvs)) : ∀ v, P v
  | .null => hnull
  | .bool b => hbool b
  | .int i => hint i
  | .str s => hstr s
  | .arr xs => harr xs fun x hx =>
      json_ind P hnull hbool hint hstr harr hobj x
  | .obj kvs => hobj kvs fun kv hkv =>
      json_ind P hnull hbool hint hstr harr hobj kv.2
termination_by v => sizeOf v
decreasing_by
  · have h1 := List.sizeOf_lt_of_mem hx
    simp only [Json.arr.sizeOf_spec]
    omega
  · have h1 := List.sizeOf_lt_of_mem hkv
    obtain ⟨a, b⟩ := kv
    simp only [Json.obj.sizeOf_spec, Prod.mk.sizeOf_spec] at *
    omega

theorem fuelV_pos (v : Json) : 1 ≤ fuelV v := by
  cases v with
  | arr xs =>
    cases xs with
    | nil => simp [fuelV]
    | cons x t => simp only [fuelV]; omega
  | obj kvs =>
    cases kvs with
    | nil => simp [fuelV]
    | cons kv t =>
      obtain ⟨k, v2⟩ := kv
      simp only [fuelV]
      omega
  | null => simp [fuelV]
  | bool b => simp [fuelV]
  | int i => simp [fuelV]
  | str s => simp [fuelV]

theorem parseArrRest_serArrRest : ∀ xs : List Json,
    (∀ x ∈ xs, ∀ fuel rest, fuelV x ≤ fuel → restOk rest = true →
      parseVal fuel (ser x ++ rest) = some (x, rest)) →
    ∀ fuel rest, fuelV (.arr xs) ≤ fuel → restOk rest = true →
      parseArrRest fuel (serArrRest xs ++ rest) = some (xs, rest) := by
  intro xs
  induction xs with
  | nil =>
    intro _ fuel rest hf hr
    obtain ⟨f, rfl⟩ : ∃ f, fuel = f + 1 := ⟨fuel - 1, by simp [fuelV] at hf; omega⟩
    simp [parseArrRest, serArrRest]
  | cons x xs ih =>
    intro IH fuel rest hf hr
    simp only [fuelV] at hf
    have h1 := fuelV_pos x
    have h2 := fuelV_pos (.arr xs)
    obtain ⟨f, rfl⟩ : ∃ f, fuel = f + 1 := ⟨fuel - 1, by omega⟩
    have hfx : fuelV x ≤ f := by omega
    have hfxs : fuelV (.arr xs) ≤ f := by omega
    have hx := IH x (List.mem_cons_self x xs) f (serArrRest xs ++ rest) hfx
      (restOk_serArrRest xs rest)
    have hxs := ih (fun y hy => IH y (List.mem_cons_of_mem _ hy)) f rest hfxs hr
    simp only [serArrRest, List.cons_append, List.append_assoc, parseArrRest]
    simp [skipWs, isWsChar, skipWs_ser, hx, skipWs_serArrRest, hxs]

theorem parseObjRest_serObjRest : ∀ kvs : List (String × Json),
    (∀ kv ∈ kvs, ∀ fuel rest, fuelV kv.2 ≤ fuel → restOk rest = true →
      parseVal fuel (ser kv.2 ++ rest) = some (kv.2, rest)) →
    ∀ fuel rest, fuelV (.obj kvs) ≤ fuel → restOk rest = true →
      parseObjRest fuel (serObjRest kvs ++ rest) = some (kvs, rest) := by
  intro kvs
  induction kvs with
  | nil =>
    intro _ fuel rest hf hr
    obtain ⟨f, rfl⟩ : ∃ f, fuel = f + 1 := ⟨fuel - 1, by simp [fuelV] at hf; omega⟩
    simp [parseObjRest, serObjRest]
  | cons kv kvs ih =>
    obtain ⟨k, v⟩ := kv
    intro IH fuel rest hf hr
    simp only [fuelV] at hf
    have h1 := fuelV_pos v
    have h2 := fuelV_pos (.obj kvs)
    obtain ⟨f, rfl⟩ : ∃ f, fuel = f + 1 := ⟨fuel - 1, by omega⟩
    have hfv : fuelV v ≤ f := by omega
    have hfkvs : fuelV (.obj kvs) ≤ f := by omega
    have hv := IH (k, v) (List.mem_cons_self _ _) f (serObjRest kvs ++ rest) hfv
      (restOk_serObjRest kvs rest)
    have hkvs := ih (fun y hy => IH y (List.mem_cons_of_mem _ hy)) f rest hfkvs hr
    have hkey := parseStr_escList k.data
      (':' :: (' ' :: (ser v ++ (serObjRest kvs ++ rest))))
    simp only [serObjRest, serStr, List.cons_append, List.append_assoc,
      List.nil_append, parseObjRest]
    simp [skipWs, isWsChar, hkey, skipWs_space, skipWs_ser, hv,
      skipWs_serObjRest, hkvs]

theorem parseVal_ser : ∀ v : Json, ∀ fuel rest, fuelV v ≤ fuel →
    restOk rest = true → parseVal fuel (ser v ++ rest) = some (v, rest) := by
  refine json_ind _ ?_ ?_ ?_ ?_ ?_ ?_
  · intro fuel rest hf hr
    obtain ⟨f, rfl⟩ : ∃ f, fuel = f + 1 := ⟨fuel - 1, by simp [fuelV] at hf; omega⟩
    simp [ser, parseVal]
  · intro b fuel rest hf hr
    obtain ⟨f, rfl⟩ : ∃ f, fuel = f + 1 := ⟨fuel - 1, by simp [fuelV] at hf; omega⟩
    cases b <;> simp [ser, parseVal]
  · intro i fuel rest hf hr
    obtain ⟨f, rfl⟩ : ∃ f, fuel = f + 1 := ⟨fuel - 1, by simp [fuelV] at hf; omega⟩
    by_cases hi : i < 0
    · simp only [ser, serInt, if_pos hi, List.cons_append, parseVal]
      simp [parseNat_natDigits _ _ hr, abs_of_neg hi]
    · cases hnd : natDigits i.toNat with
      | nil => exact absurd hnd (natDigits_spec i.toNat).2.1
      | cons d ds =>
        have hdig : d.isDigit = true :=
          (natDigits_spec i.toNat).2.2 d (by rw [hnd]; exact List.mem_cons_self _ _)
        have hnotdash : ¬d = '-' := ne_of_isDigit hdig '-' (by decide)
        have hpos : ((i.toNat : Nat) : Int) = i := by omega
        have hparse : parseNat (d :: (ds ++ rest)) = some (i.toNat, rest) := by
          rw [show d :: (ds ++ rest) = (d :: ds) ++ rest from rfl, ← hnd]
          exact parseNat_natDigits _ _ hr
        simp only [ser, serInt, if_neg hi, hnd, List.cons_append, parseVal]
        simp [hnotdash, hdig, hparse, hpos]
  · intro s fuel rest hf hr
    obtain ⟨f, rfl⟩ : ∃ f, fuel = f + 1 := ⟨fuel - 1, by simp [fuelV] at hf; omega⟩
    have hkey := parseStr_escList s.data rest
    simp only [ser, serStr, List.cons_append, List.append_assoc, List.nil_append,
      parseVal]
    simp [hkey]
  · intro xs IH fuel rest hf hr
    cases xs with
    | nil =>
      obtain ⟨f, rfl⟩ : ∃ f, fuel = f + 1 := ⟨fuel - 1, by simp [fuelV] at hf; omega⟩
      simp [ser, parseVal, skipWs, isWsChar]
    | cons x xs =>
      simp only [fuelV] at hf
      have h1 := fuelV_pos x
      have h2 := fuelV_pos (.arr xs)
      obtain ⟨f, rfl⟩ : ∃ f, fuel = f + 1 := ⟨fuel - 1, by omega⟩
      have hfx : fuelV x ≤ f := by omega
      have hfxs : fuelV (.arr xs) ≤ f := by omega
      have hx := IH x (List.mem_cons_self x xs) f (serArrRest xs ++ rest) hfx
        (restOk_serArrRest xs rest)
      have hxs := parseArrRest_serArrRest xs
        (fun y hy => IH y (List.mem_cons_of_mem _ hy)) f rest hfxs hr
      obtain ⟨hc, hcs, he, hw, hne1, hne2⟩ := ser_head x
      rw [he] at hx
      simp only [List.append_eq, List.cons_append, List.append_assoc] at hx
      simp only [ser, he, List.append_eq, List.cons_append, List.append_assoc,
        parseVal]
      rw [skipWs_not_ws _ hw]
      simp [hne1, hx, skipWs_serArrRest, hxs]
  · intro kvs IH fuel rest hf hr
    cases kvs with
    | nil =>
      obtain ⟨f, rfl⟩ : ∃ f, fuel = f + 1 := ⟨fuel - 1, by simp [fuelV] at hf; omega⟩
      simp [ser, parseVal, skipWs, isWsChar]
    | cons kv kvs =>
      obtain ⟨k, v⟩ := kv
      simp only [fuelV] at hf
      have h1 := fuelV_pos v
      have h2 := fuelV_pos (.obj kvs)
      obtain ⟨f, rfl⟩ : ∃ f, fuel = f + 1 := ⟨fuel - 1, by omega⟩
      have hfv : fuelV v ≤ f := by omega
      have hfkvs : fuelV (.obj kvs) ≤ f := by omega
      have hv := IH (k, v) (List.mem_cons_self _ _) f (serObjRest kvs ++ rest) hfv
        (restOk_serObjRest kvs rest)
      have hkvs := parseObjRest_serObjRest kvs
        (fun y hy => IH y (List.mem_cons_of_mem _ hy)) f rest hfkvs hr
      have hkey := parseStr_escList k.data
        (':' :: (' ' :: (ser v ++ (serObjRest kvs ++ rest))))
      simp only [ser, serStr, List.cons_append, List.append_assoc, List.nil_append,
        parseVal]
      simp [skipWs, isWsChar, hkey, skipWs_space, skipWs_ser, hv,
        skipWs_serObjRest, hkvs]

theorem fuelV_le_serArrRest (xs : List Json)
    (IH : ∀ x ∈ xs, fuelV x ≤ (ser x).length) :
    fuelV (.arr xs) ≤ (serArrRest xs).length := by
  induction xs with
  | nil => simp [fuelV, serArrRest]
  | cons x xs ih =>
    have hx := IH x (List.mem_cons_self x xs)
    have hxs := ih fun y hy => IH y (List.mem_cons_of_mem _ hy)
    simp only [fuelV, serArrRest, List.length_cons, List.length_append]
    omega

theorem fuelV_le_serObjRest (kvs : List (String × Json))
    (IH : ∀ kv ∈ kvs, fuelV kv.2 ≤ (ser kv.2).length) :
    fuelV (.obj kvs) ≤ (serObjRest kvs).length := by
  induction kvs with
  | nil => simp [fuelV, serObjRest]
  | cons kv kvs ih =>
    obtain ⟨k, v⟩ := kv
    have hx : fuelV v ≤ (ser v).length := IH (k, v) (List.mem_cons_self _ _)
    have hxs := ih fun y hy => IH y (List.mem_cons_of_mem _ hy)
    simp only [fuelV, serObjRest, List.length_cons, List.length_append]
    omega

theorem fuelV_le_ser_length : ∀ v : Json, fuelV v ≤ (ser v).length := by
  refine json_ind _ ?_ ?_ ?_ ?_ ?_ ?_
  · simp [fuelV, ser]
  · intro b
    cases b <;> simp [fuelV, ser]
  · intro i
    have hpos : 1 ≤ (serInt i).length := by
      rw [serInt]
      split
      · simp
      · have := (natDigits_spec i.toNat).2.1
        simpa [Nat.one_le_iff_ne_zero, List.length_eq_zero] using this
    simpa [fuelV, ser] using hpos
  · intro s
    simp [fuelV, ser, serStr]
  · intro xs IH
    cases xs with
    | nil => simp [fuelV, ser]
    | cons x xs =>
      have hx := IH x (List.mem_cons_self x xs)
      have hxs := fuelV_le_serArrRest xs fun y hy => IH y (List.mem_cons_of_mem _ hy)
      simp only [fuelV, ser, List.length_cons, List.length_append]
      omega
  · intro kvs IH
    cases kvs with
    | nil => simp [fuelV, ser]
    | cons kv kvs =>
      obtain ⟨k, v⟩ := kv
      have hx : fuelV v ≤ (ser v).length := IH (k, v) (List.mem_cons_self _ _)
      have hxs := fuelV_le_serObjRest kvs fun y hy => IH y (List.mem_cons_of_mem _ hy)
      simp only [fuelV, ser, List.length_cons, List.length_append]
      omega

theorem escList_replicate_a (n : Nat) :
    escList (List.replicate n 'a') = List.replicate n 'a' := by
  induction n with
  | zero => rfl
  | succ n ih =>
    rw [List.replicate_succ, escList, ih,
      show escChar 'a' = ['a'] from by decide, List.singleton_append,
      ← List.replicate_succ]

/-- The round trip at the heart of the protocol: `json.loads` inverts
`json.dumps` on every protocol-representable value. -/
theorem loads_ser (v : Json) : loads (ser v) = some v := by
  obtain ⟨c, cs, he, hw, -, -⟩ := ser_head v
  have hskip : skipWs (ser v) = ser v := by rw [he]; exact skipWs_not_ws _ hw
  have hfuel : fuelV v ≤ (ser v).length + 1 :=
    le_trans (fuelV_le_ser_length v) (by omega)
  have hmain := parseVal_ser v ((ser v).length + 1) [] hfuel rfl
  rw [List.append_nil] at hmain
  simp [loads, hskip, hmain, skipWs]

/-! ### Session-level lemmas -/

theorem handle_client_append (fs : String → Option (List String))
    (c : ThreadSafeCache) (xs ys : List (List Char × List Nat)) :
    handle_client fs c (xs ++ ys) =
      ((handle_client fs c xs).1 ++
        (handle_client fs (handle_client fs c xs).2 ys).1,
        (handle_client fs (handle_client fs c xs).2 ys).2) := by
  induction xs generalizing c with
  | nil => simp [handle_client]
  | cons m xs ih =>
    obtain ⟨data, sel⟩ := m
    simp [handle_client, ih]

/-- Any request-level failure that is independent of the file system
(malformed payload, wrong type, unknown method, missing or invalid
parameters) is answered with an Error response and leaves the store
untouched. -/
theorem processMessage_bad (fs : String → Option (List String))
    (cache : ThreadSafeCache) (data : List Char) (sel : List Nat)
    (h : isBadRequest data = true) :
    ∃ m, processMessage fs cache data sel =
      (Protocol.encode_response .null (some m), cache) := by
  rw [isBadRequest] at h
  cases hdec : Protocol.decode data with
  | none => exact ⟨jsonErrorMsg, by simp [processMessage, hdec]⟩
  | some msg =>
    rw [hdec] at h
    have h2 : isBadRequestMsg msg = true := h
    clear h
    cases msg with
    | null =>
      exact ⟨"message has no attribute get",
        by simp [processMessage, hdec, requestResult, PyErr.msg]⟩
    | bool b =>
      exact ⟨"message has no attribute get",
        by simp [processMessage, hdec, requestResult, PyErr.msg]⟩
    | int i =>
      exact ⟨"message has no attribute get",
        by simp [processMessage, hdec, requestResult, PyErr.msg]⟩
    | str s =>
      exact ⟨"message has no attribute get",
        by simp [processMessage, hdec, requestResult, PyErr.msg]⟩
    | arr xs =>
      exact ⟨"message has no attribute get",
        by simp [processMessage, hdec, requestResult, PyErr.msg]⟩
    | obj kvs =>
      by_cases hty : (match pyGet kvs "type" with
          | some (.str t) => t == "request" | _ => false) = true
      case neg =>
        exact ⟨"Invalid message type",
          by simp [processMessage, hdec, requestResult, hty, PyErr.msg]⟩
      case pos =>
        simp only [isBadRequestMsg, Bool.or_eq_true] at h2
        have hmb : (match pyGet kvs "method" with
            | some (.str m) =>
              if m = "load" then
                (match (pyGet kvs "params").getD (.obj []) with
                 | .obj pkvs =>
                   (match pyGet pkvs "file_path" with
                    | some (.str p) => p == ""
                    | _ => true)
                 | _ => true)
              else if m = "sample" then
                (match (pyGet kvs "params").getD (.obj []) with
                 | .obj pkvs =>
                   (match pyGet pkvs "n" with
                    | none => true
                    | some .null => true
                    | some v => match coerceN v with | .error _ => true | .ok _ => false)
                 | _ => true)
              else true
            | _ => true) = true := by
          rcases h2 with hA | hB
          · exfalso
            cases hG : pyGet kvs "type" with
            | none =>
              rw [hG] at hty
              exact absurd hty (by simp)
            | some w =>
              cases w <;> rw [hG] at hA hty <;> simp_all
          · exact hB
        cases hM : pyGet kvs "method" with
        | none =>
          exact ⟨"Unknown method: " ++ pyReprOpt none,
            by simp [processMessage, hdec, requestResult, hty, hM, PyErr.msg]⟩
        | some w =>
          rw [hM] at hmb
          cases w with
          | null =>
            exact ⟨"Unknown method: " ++ pyReprOpt (some .null),
              by simp [processMessage, hdec, requestResult, hty, hM, PyErr.msg]⟩
          | bool b =>
            exact ⟨"Unknown method: " ++ pyReprOpt (some (.bool b)),
              by simp [processMessage, hdec, requestResult, hty, hM, PyErr.msg]⟩
          | int i =>
            exact ⟨"Unknown method: " ++ pyReprOpt (some (.int i)),
              by simp [processMessage, hdec, requestResult, hty, hM, PyErr.msg]⟩
          | arr xs =>
            exact ⟨"Unknown method: " ++ pyReprOpt (some (.arr xs)),
              by simp [processMessage, hdec, requestResult, hty, hM, PyErr.msg]⟩
          | obj okvs =>
            exact ⟨"Unknown method: " ++ pyReprOpt (some (.obj okvs)),
              by simp [processMessage, hdec, requestResult, hty, hM, PyErr.msg]⟩
          | str m =>
            by_cases hm1 : m = "load"
            · subst hm1
              simp only [reduceIte] at hmb
              cases hP : (pyGet kvs "params").getD (.obj []) with
              | obj pkvs =>
                rw [hP] at hmb
                have hmbF : (match pyGet pkvs "file_path" with
                    | some (.str p) => p == ""
                    | _ => true) = true := hmb
                cases hF : pyGet pkvs "file_path" with
                | none =>
                  exact ⟨"Missing file_path parameter",
                    by simp [processMessage, hdec, requestResult, hty, hM, hP,
                      LineServer.handle_load, hF, pyTruthyOpt, PyErr.msg]⟩
                | some u =>
                  rw [hF] at hmbF
                  cases u with
                  | str p =>
                    have hp : p = "" := by simpa using hmbF
                    subst hp
                    exact ⟨"Missing file_path parameter",
                      by simp [processMessage, hdec, requestResult, hty, hM, hP,
                        LineServer.handle_load, hF, pyTruthyOpt, pyTruthy,
                        PyErr.msg]⟩
                  | null =>
                    exact ⟨"Missing file_path parameter",
                      by simp [processMessage, hdec, requestResult, hty, hM, hP,
                        LineServer.handle_load, hF, pyTruthyOpt, pyTruthy,
                        PyErr.msg]⟩
                  | bool b =>
                    cases b with
                    | false =>
                      exact ⟨"Missing file_path parameter",
                        by simp [processMessage, hdec, requestResult, hty, hM, hP,
                          LineServer.handle_load, hF, pyTruthyOpt, pyTruthy,
                          PyErr.msg]⟩
                    | true =>
                      exact ⟨"Error reading file: bad path type",
                        by simp [processMessage, hdec, requestResult, hty, hM, hP,
                          LineServer.handle_load, hF, pyTruthyOpt, pyTruthy,
                          PyErr.msg]⟩
                  | int i =>
                    by_cases hz : i = 0
                    · subst hz
                      exact ⟨"Missing file_path parameter",
                        by simp [processMessage, hdec, requestResult, hty, hM, hP,
                          LineServer.handle_load, hF, pyTruthyOpt, pyTruthy,
                          PyErr.msg]⟩
                    · exact ⟨"Error reading file: bad path type",
                        by simp [processMessage, hdec, requestResult, hty, hM, hP,
                          LineServer.handle_load, hF, pyTruthyOpt, pyTruthy, hz,
                          PyErr.msg]⟩
                  | arr xs =>
                    cases xs with
                    | nil =>
                      exact ⟨"Missing file_path parameter",
                        by simp [processMessage, hdec, requestResult, hty, hM, hP,
                          LineServer.handle_load, hF, pyTruthyOpt, pyTruthy,
                          PyErr.msg]⟩
                    | cons x t =>
                      exact ⟨"Error reading file: bad path type",
                        by simp [processMessage, hdec, requestResult, hty, hM, hP,
                          LineServer.handle_load, hF, pyTruthyOpt, pyTruthy,
                          PyErr.msg]⟩
                  | obj ikvs =>
                    cases ikvs with
                    | nil =>
                      exact ⟨"Missing file_path parameter",
                        by simp [processMessage, hdec, requestResult, hty, hM, hP,
                          LineServer.handle_load, hF, pyTruthyOpt, pyTruthy,
                          PyErr.msg]⟩
                    | cons x t =>
                      exact ⟨"Error reading file: bad path type",
                        by simp [processMessage, hdec, requestResult, hty, hM, hP,
                          LineServer.handle_load, hF, pyTruthyOpt, pyTruthy,
                          PyErr.msg]⟩
              | null =>
                exact ⟨"params has no attribute get",
                  by simp [processMessage, hdec, requestResult, hty, hM, hP,
                    LineServer.handle_load, PyErr.msg]⟩
              | bool b =>
                exact ⟨"params has no attribute get",
                  by simp [processMessage, hdec, requestResult, hty, hM, hP,
                    LineServer.handle_load, PyErr.msg]⟩
              | int i =>
                exact ⟨"params has no attribute get",
                  by simp [processMessage, hdec, requestResult, hty, hM, hP,
                    LineServer.handle_load, PyErr.msg]⟩
              | str s =>
                exact ⟨"params has no attribute get",
                  by simp [processMessage, hdec, requestResult, hty, hM, hP,
                    LineServer.handle_load, PyErr.msg]⟩
              | arr xs =>
                exact ⟨"params has no attribute get",
                  by simp [processMessage, hdec, requestResult, hty, hM, hP,
                    LineServer.handle_load, PyErr.msg]⟩
            · by_cases hm2 : m = "sample"
              · subst hm2
                simp only [reduceIte] at hmb
                cases hP : (pyGet kvs "params").getD (.obj []) with
                | obj pkvs =>
                  rw [hP] at hmb
                  have hmbN : (match pyGet pkvs "n" with
                      | none => true
                      | some .null => true
                      | some v =>
                        match coerceN v with | .error _ => true | .ok _ => false)
                      = true := hmb
                  cases hN : pyGet pkvs "n" with
                  | none =>
                    exact ⟨"Missing n parameter",
                      by simp [processMessage, hdec, requestResult, hty, hM, hP,
                        LineServer.handle_sample, hN, PyErr.msg]⟩
                  | some v =>
                    rw [hN] at hmbN
                    cases v with
                    | null =>
                      exact ⟨"Missing n parameter",
                        by simp [processMessage, hdec, requestResult, hty, hM, hP,
                          LineServer.handle_sample, hN, PyErr.msg]⟩
                    | bool b =>
                      have hmbC : (match coerceN (.bool b) with
                          | .error _ => true | .ok _ => false) = true := hmbN
                      cases hC : coerceN (.bool b) with
                      | ok i => rw [hC] at hmbC; simp at hmbC
                      | error e =>
                        exact ⟨e.msg, by simp [processMessage, hdec, requestResult,
                          hty, hM, hP, LineServer.handle_sample, hN, hC]⟩
                    | int i =>
                      have hmbC : (match coerceN (.int i) with
                          | .error _ => true | .ok _ => false) = true := hmbN
                      cases hC : coerceN (.int i) with
                      | ok j => rw [hC] at hmbC; simp at hmbC
                      | error e =>
                        exact ⟨e.msg, by simp [processMessage, hdec, requestResult,
                          hty, hM, hP, LineServer.handle_sample, hN, hC]⟩
                    | str s =>
                      have hmbC : (match coerceN (.str s) with
                          | .error _ => true | .ok _ => false) = true := hmbN
                      cases hC : coerceN (.str s) with
                      | ok j => rw [hC] at hmbC; simp at hmbC
                      | error e =>
                        exact ⟨e.msg, by simp [processMessage, hdec, requestResult,
                          hty, hM, hP, LineServer.handle_sample, hN, hC]⟩
                    | arr xs =>
                      have hmbC : (match coerceN (.arr xs) with
                          | .error _ => true | .ok _ => false) = true := hmbN
                      cases hC : coerceN (.arr xs) with
                      | ok j => rw [hC] at hmbC; simp at hmbC
                      | error e =>
                        exact ⟨e.msg, by simp [processMessage, hdec, requestResult,
                          hty, hM, hP, LineServer.handle_sample, hN, hC]⟩
                    | obj ikvs =>
                      have hmbC : (match coerceN (.obj ikvs) with
                          | .error _ => true | .ok _ => false) = true := hmbN
                      cases hC : coerceN (.obj ikvs) with
                      | ok j => rw [hC] at hmbC; simp at hmbC
                      | error e =>
                        exact ⟨e.msg, by simp [processMessage, hdec, requestResult,
                          hty, hM, hP, LineServer.handle_sample, hN, hC]⟩
                | null =>
                  exact ⟨"params has no attribute get",
                    by simp [processMessage, hdec, requestResult, hty, hM, hP,
                      LineServer.handle_sample, PyErr.msg]⟩
                | bool b =>
                  exact ⟨"params has no attribute get",
                    by simp [processMessage, hdec, requestResult, hty, hM, hP,
                      LineServer.handle_sample, PyErr.msg]⟩
                | int i =>
                  exact ⟨"params has no attribute get",
                    by simp [processMessage, hdec, requestResult, hty, hM, hP,
                      LineServer.handle_sample, PyErr.msg]⟩
                | str s =>
                  exact ⟨"params has no attribute get",
                    by simp [processMessage, hdec, requestResult, hty, hM, hP,
                      LineServer.handle_sample, PyErr.msg]⟩
                | arr xs =>
                  exact ⟨"params has no attribute get",
                    by simp [processMessage, hdec, requestResult, hty, hM, hP,
                      LineServer.handle_sample, PyErr.msg]⟩
              · exact ⟨"Unknown method: " ++ m,
                  by simp [processMessage, hdec, requestResult, hty, hM, hm1, hm2,
                    PyErr.msg]⟩

/-! ### Claim theorems -/

/-- C1: the claim says that for every store with k available lines,
sample(n) returns min(n, k) lines and afterwards size() = k - min(n, k).
The code violates the size half: with available = ["a", "a"] (k = 2) and
n = 1, either possible PRNG draw returns 1 = min(1, 2) line, but the
content-based rebuild drops both instances, so size() is 0 instead of
2 - min(1, 2) = 1. -/
theorem C1_sample_size_bug :
    ((ThreadSafeCache.sample ⟨["a", "a"], 2⟩ 1 [0]).1.length = min 1 2 ∧
      (ThreadSafeCache.sample ⟨["a", "a"], 2⟩ 1 [0]).2.size = 0) ∧
    ((ThreadSafeCache.sample ⟨["a", "a"], 2⟩ 1 [1]).1.length = min 1 2 ∧
      (ThreadSafeCache.sample ⟨["a", "a"], 2⟩ 1 [1]).2.size = 0) ∧
    2 - min 1 2 = 1 := by
  decide

/-- C2: the claim says sample removes exactly the selected instances, so a
duplicate-content instance that was not selected must remain.  The code
removes by content: with available = ["dup", "dup", "x"] and the draw
selecting only position 0, the unselected instance at position 1 is
removed as well. -/
theorem C2_instance_removal_bug :
    (ThreadSafeCache.sample ⟨["dup", "dup", "x"], 3⟩ 1 [0]).1 = ["dup"] ∧
    (ThreadSafeCache.sample ⟨["dup", "dup", "x"], 3⟩ 1 [0]).2.available_lines
      = ["x"] := by
  decide

/-- C3: the claim says the wire form is a length-prefixed frame and that
decoding rejects frames whose declared length exceeds 10 MiB.  The code
has no framing at all: the encoders emit the bare JSON bytes (an encoded
request begins with the opening brace of the JSON object, not a length
field), and decode is a plain `json.loads` that accepts a payload longer
than MAX_MESSAGE_SIZE without any size check. -/
theorem C3_no_framing :
    Protocol.decode (ser bigPayload) = some bigPayload ∧
    MAX_MESSAGE_SIZE < (ser bigPayload).length ∧
    ∀ method params, (Protocol.encode_request method params).head? = some '{' := by
  refine ⟨loads_ser bigPayload, ?_, ?_⟩
  · have hgen : ∀ n : Nat, n < (ser (.str ⟨List.replicate (n + 1) 'a'⟩)).length := by
      intro n
      have h := escList_replicate_a (n + 1)
      simp only [ser, serStr, h, List.length_cons, List.length_append,
        List.length_replicate, List.length_singleton]
      omega
    exact hgen MAX_MESSAGE_SIZE
  · intro method params
    simp [Protocol.encode_request, ser]

/-- C4: a message that fails to decode into a valid request (malformed
payload, wrong type, unknown method, missing or invalid parameters) is
answered with an Error response, the connection stays open, and every
later message of the session is processed from the unchanged store exactly
as it would have been. -/
theorem C4_session_continues (fs : String → Option (List String))
    (cache : ThreadSafeCache) (pre post : List (List Char × List Nat))
    (bad : List Char) (sel : List Nat) (h : isBadRequest bad = true) :
    ∃ m, handle_client fs cache (pre ++ (bad, sel) :: post) =
      ((handle_client fs cache pre).1 ++
        (Protocol.encode_response .null (some m) ::
          (handle_client fs (handle_client fs cache pre).2 post).1),
        (handle_client fs (handle_client fs cache pre).2 post).2) := by
  obtain ⟨m, hm⟩ := processMessage_bad fs (handle_client fs cache pre).2 bad sel h
  refine ⟨m, ?_⟩
  rw [handle_client_append]
  simp [handle_client, hm]

/-- C4 witness: instantiated at a malformed payload on a fresh session. -/
theorem C4_session_continues_witness :
    ∃ m, handle_client (fun _ => none) ThreadSafeCache.init
        ([] ++ (("garbage".data, ([] : List Nat)) :: [])) =
      ((handle_client (fun _ => none) ThreadSafeCache.init []).1 ++
        (Protocol.encode_response .null (some m) ::
          (handle_client (fun _ => none)
            (handle_client (fun _ => none) ThreadSafeCache.init []).2 []).1),
        (handle_client (fun _ => none)
          (handle_client (fun _ => none) ThreadSafeCache.init []).2 []).2) :=
  C4_session_continues (fun _ => none) ThreadSafeCache.init [] []
    ("garbage".data) [] (by decide)

/-- C5: handle_sample validates n: a missing, null, negative or
non-coercible n yields an Error (never a silent clamp), and a present n
coercible to a non-negative integer leads to sample(n) with the sampled
lines returned under the key "lines". -/
theorem C5_handle_sample_validation (cache : ThreadSafeCache)
    (kvs : List (String × Json)) (sel : List Nat) :
    ((pyGet kvs "n" = none ∨ pyGet kvs "n" = some .null) →
      IsErr (LineServer.handle_sample cache (.obj kvs) sel)) ∧
    (∀ v e, pyGet kvs "n" = some v → pyInt v = .error e →
      IsErr (LineServer.handle_sample cache (.obj kvs) sel)) ∧
    (∀ v i, pyGet kvs "n" = some v → pyInt v = .ok i → i < 0 →
      LineServer.handle_sample cache (.obj kvs) sel =
        .error (.valueError "n must be an integer")) ∧
    (∀ v i, pyGet kvs "n" = some v → pyInt v = .ok i → 0 ≤ i →
      LineServer.handle_sample cache (.obj kvs) sel =
        .ok (.obj [("lines", .arr ((cache.sample i sel).1.map .str))],
          (cache.sample i sel).2)) := by
  refine ⟨?_, ?_, ?_, ?_⟩
  · rintro (h | h) <;> simp [LineServer.handle_sample, h, IsErr]
  · intro v e hg he
    cases v with
    | null => simp [LineServer.handle_sample, hg, IsErr]
    | bool b => simp [pyInt] at he
    | int i => simp [pyInt] at he
    | str s =>
      cases hps : pyIntStr s with
      | some j => simp [pyInt, hps] at he
      | none => simp [LineServer.handle_sample, hg, coerceN, pyInt, hps, IsErr]
    | arr xs => simp [LineServer.handle_sample, hg, coerceN, pyInt, IsErr]
    | obj ik => simp [LineServer.handle_sample, hg, coerceN, pyInt, IsErr]
  · intro v i hg hok hneg
    cases v with
    | null => simp [pyInt] at hok
    | bool b =>
      cases b <;> simp [pyInt] at hok <;> omega
    | int j =>
      have hj : j = i := by simpa [pyInt] using hok
      subst hj
      simp [LineServer.handle_sample, hg, coerceN, pyInt, hneg]
    | str s =>
      cases hps : pyIntStr s with
      | none => simp [pyInt, hps] at hok
      | some j =>
        have hj : j = i := by simpa [pyInt, hps] using hok
        subst hj
        simp [LineServer.handle_sample, hg, coerceN, pyInt, hps, hneg]
    | arr xs => simp [pyInt] at hok
    | obj ik => simp [pyInt] at hok
  · intro v i hg hok hpos
    have hnn : ¬i < 0 := by omega
    cases v with
    | null => simp [pyInt] at hok
    | bool b =>
      cases b with
      | true =>
        have h1 : (1 : Int) = i := by simpa [pyInt] using hok
        subst h1
        simp [LineServer.handle_sample, hg, coerceN, pyInt]
      | false =>
        have h1 : (0 : Int) = i := by simpa [pyInt] using hok
        subst h1
        simp [LineServer.handle_sample, hg, coerceN, pyInt]
    | int j =>
      have hj : j = i := by simpa [pyInt] using hok
      subst hj
      simp [LineServer.handle_sample, hg, coerceN, pyInt, hnn]
    | str s =>
      cases hps : pyIntStr s with
      | none => simp [pyInt, hps] at hok
      | some j =>
        have hj : j = i := by simpa [pyInt, hps] using hok
        subst hj
        simp [LineServer.handle_sample, hg, coerceN, pyInt, hps, hnn]
    | arr xs => simp [pyInt] at hok
    | obj ik => simp [pyInt] at hok

/-- C5 witness: a valid n = 1 against a one-line store. -/
theorem C5_handle_sample_validation_witness :
    LineServer.handle_sample ⟨["w"], 1⟩ (.obj [("n", .int 1)]) [0] =
      .ok (.obj [("lines",
        .arr (((ThreadSafeCache.sample ⟨["w"], 1⟩ 1 [0]).1).map .str))],
        (ThreadSafeCache.sample ⟨["w"], 1⟩ 1 [0]).2) :=
  (C5_handle_sample_validation ⟨["w"], 1⟩ [("n", .int 1)] [0]).2.2.2
    (.int 1) 1 rfl rfl (by decide)

/-- C6: add_lines appends all m given lines preserving multiplicity with
no deduplication, increments totalLoaded by exactly m, returns m, and
size() grows by exactly m. -/
theorem C6_add_lines_additive (c : ThreadSafeCache) (lines : List String) :
    (c.add_lines lines).1 = lines.length ∧
    (c.add_lines lines).2.size = c.size + lines.length ∧
    (c.add_lines lines).2.total_lines_loaded =
      c.total_lines_loaded + lines.length ∧
    ∀ s, (c.add_lines lines).2.available_lines.count s =
      c.available_lines.count s + lines.count s := by
  refine ⟨rfl, ?_, rfl, ?_⟩
  · simp [ThreadSafeCache.add_lines, ThreadSafeCache.size]
  · intro s
    simp [ThreadSafeCache.add_lines, List.count_append]

/-- C7: protocol round-trip: decoding an encoded request yields the
original method and params; decoding an encoded error response yields a
null result and exactly the given error message. -/
theorem C7_protocol_roundtrip (method : String)
    (params : List (String × Json)) (msg : String) :
    Protocol.decode (Protocol.encode_request method params) =
      some (.obj [("type", .str "request"), ("method", .str method),
        ("params", .obj params)]) ∧
    Protocol.decode (Protocol.encode_response .null (some msg)) =
      some (.obj [("type", .str "response"), ("result", .null),
        ("error", .str msg)]) :=
  ⟨loads_ser _, loads_ser _⟩

/-- C8: a load request whose file cannot be read is answered with an
Error response — the session is not terminated, and the store is exactly
the store from before the request. -/
theorem C8_load_failure_safe (fs : String → Option (List String))
    (cache : ThreadSafeCache) (p : String) (sel : List Nat)
    (hp : ¬p = "") (hfs : fs p = none) :
    ∃ m, processMessage fs cache
        (Protocol.encode_request "load" [("file_path", .str p)]) sel =
      (Protocol.encode_response .null (some m), cache) := by
  have hdec : Protocol.decode (Protocol.encode_request "load"
      [("file_path", .str p)]) = some (.obj [("type", .str "request"),
      ("method", .str "load"), ("params", .obj [("file_path", .str p)])]) :=
    loads_ser _
  have htype : pyGet [("type", Json.str "request"), ("method", Json.str "load"),
      ("params", Json.obj [("file_path", Json.str p)])] "type" =
      some (.str "request") := rfl
  have hmeth : pyGet [("type", Json.str "request"), ("method", Json.str "load"),
      ("params", Json.obj [("file_path", Json.str p)])] "method" =
      some (.str "load") := rfl
  have hpar : pyGet [("type", Json.str "request"), ("method", Json.str "load"),
      ("params", Json.obj [("file_path", Json.str p)])] "params" =
      some (.obj [("file_path", Json.str p)]) := rfl
  have hfp : pyGet [("file_path", Json.str p)] "file_path" =
      some (.str p) := rfl
  refine ⟨"Error reading file: " ++ p, ?_⟩
  simp [processMessage, hdec, requestResult, htype, hmeth, hpar,
    LineServer.handle_load, hfp, pyTruthyOpt, pyTruthy, hp, hfs, PyErr.msg]

/-- C8 witness: a missing file on a fresh session. -/
theorem C8_load_failure_safe_witness :
    ∃ m, processMessage (fun _ => none) ThreadSafeCache.init
        (Protocol.encode_request "load" [("file_path", .str "data.txt")]) [] =
      (Protocol.encode_response .null (some m), ThreadSafeCache.init) :=
  C8_load_failure_safe (fun _ => none) ThreadSafeCache.init "data.txt" []
    (by decide) rfl

/-- C9: the store invariant length(available) ≤ totalLoaded holds
initially and is preserved by every operation; totalLoaded never
decreases; available shrinks only through sample (a sublist of what it
was), grows only through addLines (an append), and is untouched by size
and stats. -/
theorem C9_store_invariant :
    CacheInv ThreadSafeCache.init ∧
    (∀ c op, CacheInv c → CacheInv (CacheOp.step c op)) ∧
    (∀ c op, c.total_lines_loaded ≤ (CacheOp.step c op).total_lines_loaded) ∧
    (∀ c n sel,
      ((CacheOp.step c (.sample n sel)).available_lines).Sublist
        c.available_lines) ∧
    (∀ c lines, (CacheOp.step c (.add lines)).available_lines =
      c.available_lines ++ lines) ∧
    (∀ c, CacheOp.step c .size = c ∧ CacheOp.step c .stats = c) := by
  refine ⟨by simp [CacheInv, ThreadSafeCache.init], ?_, ?_, ?_, ?_, ?_⟩
  · intro c op hc
    cases op with
    | add lines =>
      simp only [CacheOp.step, ThreadSafeCache.add_lines, CacheInv,
        List.length_append] at *
      omega
    | sample n sel =>
      simp only [CacheOp.step, ThreadSafeCache.sample]
      split
      · exact hc
      · simp only [CacheInv] at *
        have := List.length_filter_le
          (fun line => !((sel.filterMap fun i =>
            c.available_lines.get? i).contains line)) c.available_lines
        omega
    | size => exact hc
    | stats => exact hc
  · intro c op
    cases op with
    | add lines =>
      simp [CacheOp.step, ThreadSafeCache.add_lines]
    | sample n sel =>
      simp only [CacheOp.step, ThreadSafeCache.sample]
      split <;> simp
    | size => exact le_refl _
    | stats => exact le_refl _
  · intro c n sel
    simp only [CacheOp.step, ThreadSafeCache.sample]
    split
    · exact List.Sublist.refl _
    · exact List.filter_sublist _
  · intro c lines
    rfl
  · intro c
    exact ⟨rfl, rfl⟩

/-- C9 witness: the invariant is preserved by an addLines step. -/
theorem C9_store_invariant_witness :
    CacheInv (CacheOp.step ⟨["y"], 5⟩ (.add ["x", "y"])) :=
  C9_store_invariant.2.1 ⟨["y"], 5⟩ (.add ["x", "y"]) (by simp [CacheInv])

/-- C10: sample never fabricates lines: every returned line was in
available before the call, the multiset afterwards is a sub-multiset of
the multiset before, and (for any draw satisfying the PRNG contract) the
number of returned lines never exceeds max(n, 0). -/
theorem C10_sample_no_fabrication (c : ThreadSafeCache) (n : Int)
    (sel : List Nat) :
    (∀ s ∈ (c.sample n sel).1, s ∈ c.available_lines) ∧
    (∀ s, (c.sample n sel).2.available_lines.count s ≤
      c.available_lines.count s) ∧
    (ValidSel sel (min n.toNat c.available_lines.length)
        c.available_lines.length →
      ((c.sample n sel).1.length : Int) ≤ max n 0) := by
  refine ⟨?_, ?_, ?_⟩
  · intro s hs
    simp only [ThreadSafeCache.sample] at hs
    split at hs
    · simp at hs
    · simp only [List.mem_filterMap] at hs
      obtain ⟨i, hi, hgets⟩ := hs
      exact List.get?_mem hgets
  · intro s
    simp only [ThreadSafeCache.sample]
    split
    · exact le_refl _
    · exact List.Sublist.count_le (List.filter_sublist _) s
  · intro hval
    obtain ⟨hnd, hlen, hmem⟩ := hval
    simp only [ThreadSafeCache.sample]
    split
    · simp
    · have h1 : (sel.filterMap fun i => c.available_lines.get? i).length ≤
          sel.length := List.length_filterMap_le _ _
      rw [hlen] at h1
      have h2 : min n.toNat c.available_lines.length ≤ n.toNat :=
        Nat.min_le_left _ _
      have h3 : ((n.toNat : Nat) : Int) = max n 0 := Int.toNat_eq_max n
      simp only []
      omega

/-- C10 witness: a single draw from a two-line store. -/
theorem C10_sample_no_fabrication_witness :
    ((ThreadSafeCache.sample ⟨["u", "v"], 2⟩ 1 [1]).1.length : Int) ≤ max 1 0 :=
  (C10_sample_no_fabrication ⟨["u", "v"], 2⟩ 1 [1]).2.2
    ⟨by decide, by decide, by decide⟩

end LineSampler
